import Mathlib

/-!
A shallow embedding of the `micropython-socket-ota` repository: the
update server `OTAUpdater` (`src/ota/__init__.py`) and the desktop
client `OTAClient` (`src/ota_client.py`).

Bytes are modelled as `Nat`, byte strings as `List Nat`.  The TCP
stream seen by the server is a list of bytes together with a chunk
schedule: a list whose entries say how many bytes the transport
delivers on each successive `recv` call (each delivery is additionally
capped by the requested amount and by the data still available, and an
empty delivery models a closed connection).  External primitives
(`hashlib.sha256`, `os.mkdir` failures, the random challenge
generator, the client's responses) are oracles passed as parameters.
-/

/-- Server-side observable events: socket receives, file writes,
socket sends, closing the connection, the short sleep before reboot
and the `machine.reset()` restart. -/
inductive Ev where
  | recv : List Nat → Ev
  | fwrite : String → List Nat → Ev
  | send : String → Ev
  | closeConn : Ev
  | sleepEv : Ev
  | reset : Ev
  deriving Repr, DecidableEq

/-- Python's `str.split("/")` on character lists: split at every
slash, keeping empty pieces. -/
def splitChars : List Char → List Char → List (List Char)
  | [], acc => [acc.reverse]
  | c :: cs, acc =>
    if c = '/' then acc.reverse :: splitChars cs []
    else splitChars cs (c :: acc)

/-- `dir_path.split("/")` as used in `_receive_file`. -/
def splitSlash (s : String) : List String :=
  (splitChars s.data []).map String.mk

/-- The characters before the last slash: `file_path.rsplit("/", 1)[0]`
of `_receive_file`, at character level. -/
def dropLastComponent (cs : List Char) : List Char :=
  ((cs.reverse.dropWhile (fun c => c != '/')).drop 1).reverse

/-- Python's `path[:-1]` from the `_receive_file` directory loop. -/
def strDropLast (s : String) : String := String.mk s.data.dropLast

/-- Model of the external `os.mkdir`: error 17 (`EEXIST`) if the
directory already exists, otherwise a platform-injected error from the
oracle `osErr` if any, error 2 (`ENOENT`) if the parent directory is
missing, else the directory is created. -/
def mkdir (osErr : String → Option Nat) (fs : List String) (path : String) :
    Except Nat (List String) :=
  if fs.contains path then .error 17
  else
    match osErr path with
    | some e => .error e
    | none =>
      if path.data.contains '/' then
        if fs.contains (String.mk (dropLastComponent path.data)) then .ok (path :: fs)
        else .error 2
      else .ok (path :: fs)

/-- `OTAUpdater._makedirs` (lines 174-185): return immediately on the
empty path, call `os.mkdir`, treat error 17 (`EEXIST`) as success and
re-raise anything else. -/
def makedirs (osErr : String → Option Nat) (fs : List String) (path : String) :
    Except Nat (List String) :=
  if path = "" then .ok fs
  else
    match mkdir osErr fs path with
    | .ok fs1 => .ok fs1
    | .error e => if e = 17 then .ok fs else .error e

/-- The directory-creation loop of `_receive_file` (lines 196-200):
grow `path = path + part + "/"` over the components and call
`_makedirs(path[:-1])` for each prefix. -/
def create_dirs_go (osErr : String → Option Nat) :
    List String → String → List String → Except Nat (List String)
  | fs, _, [] => .ok fs
  | fs, path, part :: rest =>
    let path1 := path ++ part ++ "/"
    match makedirs osErr fs (strDropLast path1) with
    | .error e => .error e
    | .ok fs1 => create_dirs_go osErr fs1 path1 rest

/-- Directory creation for one file in `_receive_file` (lines 193-200):
take the directory part of the path (everything before the last slash,
empty if there is no slash) and, if it is nonempty, create every
prefix of it. -/
def create_dirs (osErr : String → Option Nat) (fs : List String) (file_path : String) :
    Except Nat (List String) :=
  let dir_path :=
    if file_path.data.contains '/' then String.mk (dropLastComponent file_path.data)
    else ""
  if dir_path = "" then .ok fs
  else create_dirs_go osErr fs "" (splitSlash dir_path)

/-- One entry of `metadata["files"]`: relative path and declared byte
count. -/
structure FileEntry where
  path : String
  size : Nat
  deriving Repr, DecidableEq

/-- Per-session server state: the directories existing on the device,
the files written so far, the payload bytes still in flight from the
client, and the remaining chunk schedule of the transport. -/
structure SrvState where
  fs : List String
  written : List (String × List Nat)
  stream : List Nat
  sched : List Nat
  deriving Repr, DecidableEq

inductive RStatus where
  | done
  | connLost
  | timedOut
  deriving Repr, DecidableEq

/-- Result of the receive loop: the bytes written to the file, the
rest of the wire stream, the rest of the schedule, and how the loop
ended. -/
structure RecvRes where
  got : List Nat
  stream : List Nat
  sched : List Nat
  status : RStatus
  deriving Repr, DecidableEq

/-- The receive loop of `_receive_file` (lines 207-217): while fewer
than `file_size` bytes have arrived, request
`min(1024, file_size - received)` bytes; the transport delivers at
most the next schedule entry and no more than is still available.  An
empty chunk means the peer closed the connection (`return False`); an
exhausted schedule models a `recv` that blocks until the socket
timeout raises.  Each delivered chunk is written to the destination
file as it arrives. -/
def receive_loop (path : String) : Nat → List Nat → List Nat → List Ev × RecvRes
  | remaining, stream, [] =>
    if remaining = 0 then ([], ⟨[], stream, [], .done⟩)
    else ([], ⟨[], stream, [], .timedOut⟩)
  | remaining, stream, k :: ks =>
    if remaining = 0 then ([], ⟨[], stream, k :: ks, .done⟩)
    else
      let chunk := stream.take (min (min 1024 remaining) k)
      if chunk.length = 0 then ([Ev.recv []], ⟨[], stream, ks, .connLost⟩)
      else
        let r := receive_loop path (remaining - chunk.length) (stream.drop chunk.length) ks
        (Ev.recv chunk :: Ev.fwrite path chunk :: r.1,
         ⟨chunk ++ r.2.got, r.2.stream, r.2.sched, r.2.status⟩)

inductive FileOutcome where
  | ok
  | failed
  | raised
  deriving Repr, DecidableEq

/-- `OTAUpdater._receive_file` (lines 187-221): create the directory
structure (an `OSError` there is caught and becomes `return False`),
open the destination file truncating, receive exactly `size` bytes
into it, then send the 2-byte acknowledgment `OK`.  An empty chunk
returns `False` (`failed`); a raising `recv` propagates (`raised`). -/
def receive_file (osErr : String → Option Nat) (st : SrvState) (e : FileEntry) :
    List Ev × SrvState × FileOutcome :=
  match create_dirs osErr st.fs e.path with
  | .error _ => ([], st, .failed)
  | .ok fs1 =>
    let r := receive_loop e.path e.size st.stream st.sched
    let st1 : SrvState := ⟨fs1, st.written ++ [(e.path, r.2.got)], r.2.stream, r.2.sched⟩
    match r.2.status with
    | .done => (r.1 ++ [Ev.send "OK"], st1, .ok)
    | .connLost => (r.1, st1, .failed)
    | .timedOut => (r.1, st1, .raised)

inductive SessOutcome where
  | completed
  | returnedEarly
  | raised
  deriving Repr, DecidableEq

/-- The per-file loop and success tail of `_handle_client_connection`
(lines 143-161): receive each manifest entry in order; a `False` from
`_receive_file` returns early, an exception propagates; after the last
file the server sends the literal `UPDATE_SUCCESS`, closes the socket,
sleeps briefly and calls `machine.reset()`. -/
def process_files (osErr : String → Option Nat) :
    SrvState → List FileEntry → List Ev × SrvState × SessOutcome
  | st, [] => ([Ev.send "UPDATE_SUCCESS", Ev.closeConn, Ev.sleepEv, Ev.reset], st, .completed)
  | st, e :: rest =>
    let r := receive_file osErr st e
    match r.2.2 with
    | .ok =>
      let r2 := process_files osErr r.2.1 rest
      (r.1 ++ r2.1, r2.2.1, r2.2.2)
    | .failed => (r.1, r.2.1, .returnedEarly)
    | .raised => (r.1, r.2.1, .raised)

/-- One lowercase hex digit, as produced by `ubinascii.hexlify` and
`hexdigest()`. -/
def hexChar (n : Nat) : Char :=
  if n < 10 then Char.ofNat (48 + n) else Char.ofNat (87 + n)

/-- `ubinascii.hexlify(digest).decode()` / `.hexdigest()`: two
lowercase hex characters per digest byte. -/
def hexlify (bs : List Nat) : String :=
  String.mk ((bs.map (fun b => [hexChar (b % 256 / 16), hexChar (b % 16)])).flatten)

/-- The expectation `_verify_response` computes (lines 71-72):
hex-encoded digest of `challenge + OTA_PASSWORD`, with the digest
function `hashlib.sha256` an external primitive passed as `H`. -/
def server_expected (H : String → List Nat) (secret challenge : String) : String :=
  hexlify (H (challenge ++ secret))

/-- `OTAUpdater._verify_response` (lines 68-75): equality comparison of
the received response against the computed expectation. -/
def verify_response (H : String → List Nat) (secret challenge response : String) : Bool :=
  response == server_expected H secret challenge

/-- The response computation of `OTAClient._authenticate` (line 66):
`hashlib.sha256((challenge + password).encode()).hexdigest()`. -/
def client_auth_response (H : String → List Nat) (password challenge : String) : String :=
  hexlify (H (challenge ++ password))

/-- `OTAUpdater._authenticate_client` (lines 223-257), with the random
challenge generator and the client's responses supplied as oracles
indexed by attempt number; a `none` response models a transport
exception during the attempt, which the handler catches and turns into
`return False`.  The argument counts attempts left, starting at
`max_attempts = 3`. -/
def auth_loop (H : String → List Nat) (secret : String) (chal : Nat → String)
    (resp : Nat → Option String) : Nat → List Ev × Bool
  | 0 => ([], false)
  | n + 1 =>
    let i := 3 - (n + 1)
    let c := chal i
    match resp i with
    | none => ([Ev.send c], false)
    | some r =>
      if verify_response H secret c r then ([Ev.send c, Ev.send "OK"], true)
      else
        let rest := auth_loop H secret chal resp n
        (Ev.send c :: Ev.send "AUTH_FAIL" :: rest.1, rest.2)

/-- Entry point of the authentication phase: at most 3 attempts. -/
def authenticate_client (H : String → List Nat) (secret : String) (chal : Nat → String)
    (resp : Nat → Option String) : List Ev × Bool :=
  auth_loop H secret chal resp 3

/-- Client-side observable events of the payload phase: a socket send
and a blocking `sock.recv(n)` awaiting an acknowledgment. -/
inductive CEv where
  | csend : List Nat → CEv
  | cawait : Nat → CEv
  deriving Repr, DecidableEq

/-- The `f.read(1024)` loop of `send_update` (lines 187-192), with
enough fuel to drain the file (the loop breaks on an empty read). -/
def readLoop : Nat → List Nat → List (List Nat)
  | 0, _ => []
  | _ + 1, [] => []
  | fuel + 1, b :: bs => ((b :: bs).take 1024) :: readLoop fuel ((b :: bs).drop 1024)

/-- All chunks `f.read(1024)` yields for a file of the given content. -/
def readChunks (content : List Nat) : List (List Nat) :=
  readLoop content.length content

/-- The per-file send loop of `send_update` (lines 183-197): stream the
raw bytes of each file in manifest order, then block on `sock.recv(2)`
for the per-file acknowledgment. -/
def client_send_files : List (String × List Nat) → List CEv
  | [] => []
  | f :: rest => ((readChunks f.2).map CEv.csend) ++ (CEv.cawait 2 :: client_send_files rest)

/-- All payload bytes the client puts on the wire. -/
def client_payload_bytes (cf : List (String × List Nat)) : List Nat :=
  ((client_send_files cf).filterMap (fun ev => match ev with
    | CEv.csend bs => some bs
    | CEv.cawait _ => none)).flatten

/-- `OTAClient.gather_files` (lines 105-131): the manifest entry for a
file records `stat().st_size`, i.e. the length of its content. -/
def gather_files (cf : List (String × List Nat)) : List FileEntry :=
  cf.map (fun f => ⟨f.1, f.2.length⟩)

/-- One best-effort `conn.send(b"FAIL")`, which may itself raise. -/
def send_fail_attempt (raises : Bool) : List Ev × Except Unit Unit :=
  if raises then ([], .error ()) else ([Ev.send "FAIL"], .ok ())

/-- The exception plumbing of `_handle_client_connection`
(lines 113-172): a failed authentication returns quietly; an exception
from the metadata/file phase is caught by the inner handler and
answered with an unprotected `conn.send(b"FAIL")`; if that send raises
too, the exception reaches the outer handler, which retries the send
inside `try/except: pass`.  The second component is the exception, if
any, escaping the handler. -/
def handle_client_connection (authOk bodyRaises sendRaises1 sendRaises2 : Bool)
    (bodyEvs : List Ev) : List Ev × Except Unit Unit :=
  let inner : List Ev × Except Unit Unit :=
    if authOk = false then ([], .ok ())
    else if bodyRaises = false then (bodyEvs, .ok ())
    else
      let s1 := send_fail_attempt sendRaises1
      (bodyEvs ++ s1.1, s1.2)
  match inner.2 with
  | .ok _ => inner
  | .error _ =>
    let s2 := send_fail_attempt sendRaises2
    (inner.1 ++ s2.1, .ok ())

/-- `try body except Exception: fallback`. -/
def pyTryAll (body fallback : Except Unit Unit) : Except Unit Unit :=
  match body with
  | .ok a => .ok a
  | .error _ => fallback

/-- `try body finally fin`: `fin` always runs, and an exception raised
by `fin` wins. -/
def pyFinally (body fin : Except Unit Unit) : Except Unit Unit :=
  match fin with
  | .error e => .error e
  | .ok _ => body

/-- One iteration of the `start_server` accept loop (lines 97-111): the
handler runs inside `try/except/finally (conn.close())`, and the whole
body inside one more `try/except`.  The result is the exception, if
any, escaping the loop body (which would kill the accept loop). -/
def start_server_iteration (handler closeRes : Except Unit Unit) : Except Unit Unit :=
  pyTryAll (pyFinally (pyTryAll handler (.ok ())) closeRes) (.ok ())

/-- Whether an event is a socket send. -/
def isSend : Ev → Bool
  | Ev.send _ => true
  | _ => false

/-- Number of `FAIL` tokens among the events. -/
def countFailSends (evs : List Ev) : Nat :=
  (evs.filter (fun ev => decide (ev = Ev.send "FAIL"))).length

/-- Total declared byte count of a manifest. -/
def sizeSum (entries : List FileEntry) : Nat :=
  (entries.map FileEntry.size).sum

/-- Slicing a raw byte stream at the manifest-declared sizes.  Written
from the spec's words ("slice the decompressed stream into files using
only the manifest-declared sizes") to compare with the behaviour of
the server code. -/
def slices : List Nat → List FileEntry → List (String × List Nat)
  | _, [] => []
  | stream, e :: rest => (e.path, stream.take e.size) :: slices (stream.drop e.size) rest

/-- A well-formed relative POSIX path: nonempty, with nonempty
components (no leading, trailing or doubled slash). -/
def validPath (p : String) : Prop :=
  p ≠ "" ∧ ∀ part ∈ splitChars p.data [], part ≠ []

instance (p : String) : Decidable (validPath p) :=
  inferInstanceAs (Decidable (p ≠ "" ∧ ∀ part ∈ splitChars p.data [], part ≠ []))

/-- Scan checking that no file write happens before a later socket
receive: `true` exactly when all receives precede all writes, i.e.
when the payload is fully received into spooled storage before any
file is materialized. -/
def spoolOk : Bool → List Ev → Bool
  | _, [] => true
  | seenWrite, Ev.recv _ :: rest => !seenWrite && spoolOk seenWrite rest
  | _, Ev.fwrite _ _ :: rest => spoolOk true rest
  | seenWrite, _ :: rest => spoolOk seenWrite rest

/-- Claim C1 as stated, server side: in every successful session the
payload is first received in full into spooled temporary storage and
only then decompressed and sliced into files — so no file write ever
precedes a later socket receive. -/
def c1_claim : Prop :=
  ∀ osErr st entries evs st2,
    process_files osErr st entries = (evs, st2, SessOutcome.completed) →
    spoolOk false evs = true

/-- Claim C2 as stated: whenever the space the manifest requires
exceeds free storage, the server sends `FAIL` and never requests a
payload byte.  Since `required = compressed_size + total_uncompressed`
is at least `total_uncompressed = sizeSum entries`, free space below
`sizeSum entries` already triggers the claimed behaviour. -/
def c2_claim : Prop :=
  ∀ (freeSpace : Nat) osErr st entries, freeSpace < sizeSum entries →
    Ev.send "FAIL" ∈ (process_files osErr st entries).1 ∧
    ∀ ch, Ev.recv ch ∉ (process_files osErr st entries).1

/-- Claim C6 as stated: between the manifest acknowledgment and the
final outcome token the server sends nothing, so the only send in a
completed payload phase is the final token itself. -/
def c6_claim : Prop :=
  ∀ osErr st entries evs st2,
    process_files osErr st entries = (evs, st2, SessOutcome.completed) →
    ∀ s, Ev.send s ∈ evs → s = "UPDATE_SUCCESS"

/-- The trivial error oracle: `os.mkdir` only fails with `EEXIST`. -/
def noErr : String → Option Nat := fun _ => none

/-- The `os.mkdir` oracle that injects error 28 (`ENOSPC`) for the
directory `d`, used to exercise the hard-failure path. -/
def errOsErr : String → Option Nat := fun p => if p = "d" then some 28 else none

/-- A concrete session state: two payload bytes, delivered one at a
time by the transport. -/
def cSt : SrvState := ⟨[], [], [1, 2], [1, 1]⟩

/-- A concrete one-file manifest. -/
def cEntries : List FileEntry := [⟨"a.txt", 2⟩]

lemma take_min_length {α : Type} (l : List α) (n : Nat) :
    l.take (min n l.length) = l.take n := by
  rcases le_total n l.length with h | h
  · rw [min_eq_left h]
  · rw [min_eq_right h, List.take_length, List.take_of_length_le h]

lemma receive_loop_cons_pos (path : String) (remaining : Nat) (stream : List Nat)
    (k : Nat) (ks : List Nat) (h : ¬remaining = 0)
    (hlen : ¬(stream.take (min (min 1024 remaining) k)).length = 0) :
    receive_loop path remaining stream (k :: ks) =
      (Ev.recv (stream.take (min (min 1024 remaining) k)) ::
        Ev.fwrite path (stream.take (min (min 1024 remaining) k)) ::
        (receive_loop path (remaining - (stream.take (min (min 1024 remaining) k)).length)
          (stream.drop (stream.take (min (min 1024 remaining) k)).length) ks).1,
       ⟨stream.take (min (min 1024 remaining) k) ++
          (receive_loop path (remaining - (stream.take (min (min 1024 remaining) k)).length)
            (stream.drop (stream.take (min (min 1024 remaining) k)).length) ks).2.got,
        (receive_loop path (remaining - (stream.take (min (min 1024 remaining) k)).length)
          (stream.drop (stream.take (min (min 1024 remaining) k)).length) ks).2.stream,
        (receive_loop path (remaining - (stream.take (min (min 1024 remaining) k)).length)
          (stream.drop (stream.take (min (min 1024 remaining) k)).length) ks).2.sched,
        (receive_loop path (remaining - (stream.take (min (min 1024 remaining) k)).length)
          (stream.drop (stream.take (min (min 1024 remaining) k)).length) ks).2.status⟩) := by
  simp only [receive_loop]
  rw [if_neg h, if_neg hlen]

lemma receive_loop_spec (path : String) :
    ∀ (sched : List Nat) (remaining : Nat) (stream : List Nat),
      ((receive_loop path remaining stream sched).2.got.length ≤ remaining) ∧
      ((receive_loop path remaining stream sched).2.got =
        stream.take (receive_loop path remaining stream sched).2.got.length) ∧
      ((receive_loop path remaining stream sched).2.stream =
        stream.drop (receive_loop path remaining stream sched).2.got.length) ∧
      ((receive_loop path remaining stream sched).2.status = RStatus.done →
        (receive_loop path remaining stream sched).2.got.length = remaining) := by
  intro sched
  induction sched with
  | nil =>
    intro remaining stream
    by_cases h : remaining = 0 <;> simp [receive_loop, h]
  | cons k ks ih =>
    intro remaining stream
    by_cases h : remaining = 0
    · simp [receive_loop, h]
    · by_cases hlen : (stream.take (min (min 1024 remaining) k)).length = 0
      · simp only [receive_loop]
        rw [if_neg h, if_pos hlen]
        simp
      · rw [receive_loop_cons_pos path remaining stream k ks h hlen]
        have hcle : (stream.take (min (min 1024 remaining) k)).length ≤ remaining := by
          rw [List.length_take]
          exact le_trans (min_le_left _ _)
            (le_trans (min_le_left _ _) (min_le_right _ _))
        obtain ⟨ih1, ih2, ih3, ih4⟩ :=
          ih (remaining - (stream.take (min (min 1024 remaining) k)).length)
            (stream.drop (stream.take (min (min 1024 remaining) k)).length)
        refine ⟨?_, ?_, ?_, ?_⟩
        · simp only [List.length_append]
          omega
        · have h2 : stream.take (stream.take (min (min 1024 remaining) k)).length =
              stream.take (min (min 1024 remaining) k) := by
            rw [List.length_take, take_min_length]
          simp only [List.length_append]
          rw [List.take_add, h2, ← ih2]
        · simp only [List.length_append]
          rw [ih3, List.drop_drop]
        · intro hst
          simp only [List.length_append]
          have := ih4 hst
          omega

lemma receive_loop_events (path : String) :
    ∀ (sched : List Nat) (remaining : Nat) (stream : List Nat) (ev : Ev),
      ev ∈ (receive_loop path remaining stream sched).1 →
      (∃ ch, ev = Ev.recv ch ∧ ch.length ≤ min 1024 remaining) ∨
      ∃ ch, ev = Ev.fwrite path ch := by
  intro sched
  induction sched with
  | nil =>
    intro remaining stream ev hev
    by_cases h : remaining = 0 <;> simp [receive_loop, h] at hev
  | cons k ks ih =>
    intro remaining stream ev hev
    by_cases h : remaining = 0
    · simp [receive_loop, h] at hev
    · by_cases hlen : (stream.take (min (min 1024 remaining) k)).length = 0
      · simp only [receive_loop] at hev
        rw [if_neg h, if_pos hlen] at hev
        simp only [List.mem_singleton] at hev
        exact Or.inl ⟨[], hev, by simp⟩
      · rw [receive_loop_cons_pos path remaining stream k ks h hlen] at hev
        simp only [List.mem_cons] at hev
        rcases hev with h1 | h1 | h1
        · refine Or.inl ⟨_, h1, ?_⟩
          rw [List.length_take]
          exact le_trans (min_le_left _ _) (min_le_left _ _)
        · exact Or.inr ⟨_, h1⟩
        · rcases ih _ _ ev h1 with ⟨ch, hch, hb⟩ | ⟨ch, hch⟩
          · exact Or.inl ⟨ch, hch,
              le_trans hb (min_le_min (le_refl 1024) (Nat.sub_le _ _))⟩
          · exact Or.inr ⟨ch, hch⟩

lemma receive_loop_success (path : String) :
    ∀ (sched : List Nat) (remaining : Nat) (stream : List Nat),
      (∀ k ∈ sched, 1 ≤ k) → remaining ≤ stream.length → remaining ≤ sched.length →
      ∃ evs n,
        receive_loop path remaining stream sched =
          (evs, ⟨stream.take remaining, stream.drop remaining, sched.drop n, RStatus.done⟩) ∧
        n ≤ remaining := by
  intro sched
  induction sched with
  | nil =>
    intro remaining stream _ _ hsched
    have h0 : remaining = 0 := by simpa using hsched
    subst h0
    exact ⟨[], 0, by simp [receive_loop], le_refl 0⟩
  | cons k ks ih =>
    intro remaining stream hks hstream hsched
    by_cases h : remaining = 0
    · subst h
      exact ⟨[], 0, by simp [receive_loop], le_refl 0⟩
    · have hk1 : 1 ≤ k := hks k (by simp)
      have hmr : min (min 1024 remaining) k ≤ remaining :=
        le_trans (min_le_left _ _) (min_le_right _ _)
      have hms : min (min 1024 remaining) k ≤ stream.length := le_trans hmr hstream
      have hclen : (stream.take (min (min 1024 remaining) k)).length =
          min (min 1024 remaining) k := by
        rw [List.length_take]
        exact min_eq_left hms
      have hm1 : 1 ≤ min (min 1024 remaining) k :=
        le_min (le_min (by omega) (by omega)) hk1
      have hlen : ¬(stream.take (min (min 1024 remaining) k)).length = 0 := by omega
      obtain ⟨evs', n', heq', hn'⟩ :=
        ih (remaining - min (min 1024 remaining) k)
          (stream.drop (min (min 1024 remaining) k))
          (fun q hq => hks q (List.mem_cons_of_mem _ hq))
          (by rw [List.length_drop]; omega)
          (by simp at hsched ⊢; omega)
      refine ⟨Ev.recv (stream.take (min (min 1024 remaining) k)) ::
        Ev.fwrite path (stream.take (min (min 1024 remaining) k)) :: evs', n' + 1, ?_, by omega⟩
      rw [receive_loop_cons_pos path remaining stream k ks h hlen, hclen, heq']
      have hadd : min (min 1024 remaining) k + (remaining - min (min 1024 remaining) k) =
          remaining := by omega
      rw [List.drop_succ_cons]
      dsimp only
      rw [← List.take_add, List.drop_drop, hadd]

lemma receive_loop_filter_sends (path : String) (remaining : Nat) (stream sched : List Nat) :
    (receive_loop path remaining stream sched).1.filter isSend = [] := by
  rw [List.filter_eq_nil_iff]
  intro ev hev
  rcases receive_loop_events path sched remaining stream ev hev with ⟨ch, rfl, _⟩ | ⟨ch, rfl⟩ <;>
    simp [isSend]

lemma receive_file_events (osErr : String → Option Nat) (st : SrvState) (e : FileEntry)
    (ev : Ev) (hev : ev ∈ (receive_file osErr st e).1) :
    (∃ ch, ev = Ev.recv ch) ∨ (∃ p ch, ev = Ev.fwrite p ch) ∨ ev = Ev.send "OK" := by
  simp only [receive_file] at hev
  cases hcd : create_dirs osErr st.fs e.path with
  | error n =>
    rw [hcd] at hev
    simp at hev
  | ok fs1 =>
    rw [hcd] at hev
    cases hst : (receive_loop e.path e.size st.stream st.sched).2.status <;>
      rw [hst] at hev
    · simp only [List.mem_append, List.mem_singleton] at hev
      rcases hev with hev | hev
      · rcases receive_loop_events e.path st.sched e.size st.stream ev hev with
          ⟨ch, rfl, _⟩ | ⟨ch, rfl⟩
        · exact Or.inl ⟨ch, rfl⟩
        · exact Or.inr (Or.inl ⟨e.path, ch, rfl⟩)
      · exact Or.inr (Or.inr hev)
    · rcases receive_loop_events e.path st.sched e.size st.stream ev hev with
        ⟨ch, rfl, _⟩ | ⟨ch, rfl⟩
      · exact Or.inl ⟨ch, rfl⟩
      · exact Or.inr (Or.inl ⟨e.path, ch, rfl⟩)
    · rcases receive_loop_events e.path st.sched e.size st.stream ev hev with
        ⟨ch, rfl, _⟩ | ⟨ch, rfl⟩
      · exact Or.inl ⟨ch, rfl⟩
      · exact Or.inr (Or.inl ⟨e.path, ch, rfl⟩)

lemma receive_file_ok_spec (osErr : String → Option Nat) (st : SrvState) (e : FileEntry)
    (evs : List Ev) (st1 : SrvState)
    (hok : receive_file osErr st e = (evs, st1, FileOutcome.ok)) :
    ∃ got, st1.written = st.written ++ [(e.path, got)] ∧ got.length = e.size ∧
      st1.stream = st.stream.drop e.size := by
  simp only [receive_file] at hok
  cases hcd : create_dirs osErr st.fs e.path with
  | error n =>
    rw [hcd] at hok
    simp at hok
  | ok fs1 =>
    rw [hcd] at hok
    obtain ⟨h1, h2, h3, h4⟩ := receive_loop_spec e.path st.sched e.size st.stream
    cases hst : (receive_loop e.path e.size st.stream st.sched).2.status <;>
      rw [hst] at hok <;> simp only [Prod.mk.injEq] at hok
    · obtain ⟨_, hst1, _⟩ := hok
      refine ⟨(receive_loop e.path e.size st.stream st.sched).2.got, ?_, ?_, ?_⟩
      · rw [← hst1]
      · exact h4 hst
      · rw [← hst1]
        dsimp only
        rw [h3, h4 hst]
    · exact absurd hok.2.2 (by simp)
    · exact absurd hok.2.2 (by simp)

lemma receive_file_success (osErr : String → Option Nat) (st : SrvState) (e : FileEntry)
    (fs1 : List String) (hcd : create_dirs osErr st.fs e.path = .ok fs1)
    (hstream : e.size ≤ st.stream.length) (hsched : e.size ≤ st.sched.length)
    (hks : ∀ k ∈ st.sched, 1 ≤ k) :
    ∃ evs n, receive_file osErr st e =
      (evs ++ [Ev.send "OK"],
       ⟨fs1, st.written ++ [(e.path, st.stream.take e.size)], st.stream.drop e.size,
        st.sched.drop n⟩,
       FileOutcome.ok) ∧ n ≤ e.size ∧ evs.filter isSend = [] := by
  obtain ⟨evs, n, heq, hn⟩ :=
    receive_loop_success e.path st.sched e.size st.stream hks hstream hsched
  refine ⟨evs, n, ?_, hn, ?_⟩
  · simp only [receive_file]
    rw [hcd, heq]
  · have hf := receive_loop_filter_sends e.path e.size st.stream st.sched
    rw [heq] at hf
    exact hf

lemma splitChars_append_slash (ys : List Char) :
    ∀ (xs acc : List Char),
      splitChars (xs ++ '/' :: ys) acc = splitChars xs acc ++ splitChars ys [] := by
  intro xs
  induction xs with
  | nil =>
    intro acc
    simp [splitChars]
  | cons c cs ih =>
    intro acc
    by_cases hc : c = '/'
    · subst hc
      simp [splitChars, ih]
    · simp [splitChars, hc, ih]

lemma splitChars_no_slash_mem :
    ∀ (cs acc chunk : List Char),
      chunk ∈ splitChars cs acc → '/' ∉ acc → '/' ∉ chunk := by
  intro cs
  induction cs with
  | nil =>
    intro acc chunk h hacc
    simp only [splitChars, List.mem_singleton] at h
    subst h
    simpa using hacc
  | cons c cs ih =>
    intro acc chunk h hacc
    by_cases hc : c = '/'
    · simp only [splitChars] at h
      rw [if_pos hc] at h
      rcases List.mem_cons.mp h with h1 | h1
      · subst h1
        simpa using hacc
      · exact ih [] chunk h1 (by simp)
    · simp only [splitChars] at h
      rw [if_neg hc] at h
      refine ih (c :: acc) chunk h ?_
      simp only [List.mem_cons]
      rintro (h1 | h1)
      · exact hc h1.symm
      · exact hacc h1

lemma splitChars_single :
    ∀ (cs : List Char), '/' ∉ cs → ∀ acc, splitChars cs acc = [acc.reverse ++ cs] := by
  intro cs
  induction cs with
  | nil =>
    intro _ acc
    simp [splitChars]
  | cons c cs ih =>
    intro h acc
    have hc : ¬c = '/' := by
      intro hcc
      exact h (by rw [hcc]; exact List.mem_cons_self _ _)
    have htail : '/' ∉ cs := fun hcc => h (List.mem_cons_of_mem _ hcc)
    simp only [splitChars, if_neg hc]
    rw [ih htail (c :: acc)]
    simp

lemma dropWhile_append_slash (b : List Char) :
    ∀ (a : List Char), '/' ∉ a →
      (a ++ '/' :: b).dropWhile (fun c => c != '/') = '/' :: b := by
  intro a
  induction a with
  | nil =>
    intro _
    simp [List.dropWhile]
  | cons c cs ih =>
    intro h
    have hc : ¬c = '/' := by
      intro hcc
      exact h (by rw [hcc]; exact List.mem_cons_self _ _)
    have htail : '/' ∉ cs := fun hcc => h (List.mem_cons_of_mem _ hcc)
    simp only [List.cons_append, List.dropWhile_cons, bne_iff_ne, ne_eq, hc,
      not_false_eq_true, if_true]
    exact ih htail

lemma dropLastComponent_append (xs part : List Char) (h : '/' ∉ part) :
    dropLastComponent (xs ++ '/' :: part) = xs := by
  unfold dropLastComponent
  rw [List.reverse_append]
  have h1 : ('/' :: part).reverse ++ xs.reverse = part.reverse ++ '/' :: xs.reverse := by
    simp
  rw [h1, dropWhile_append_slash xs.reverse part.reverse (by simpa using h)]
  simp

lemma slash_decomp :
    ∀ (cs : List Char), '/' ∈ cs → ∃ xs part, cs = xs ++ '/' :: part ∧ '/' ∉ part := by
  intro cs
  induction cs with
  | nil =>
    intro h
    simp at h
  | cons c cs ih =>
    intro h
    by_cases hcs : '/' ∈ cs
    · obtain ⟨xs, part, heq, hp⟩ := ih hcs
      exact ⟨c :: xs, part, by rw [heq]; simp, hp⟩
    · have hc : c = '/' := by
        rcases List.mem_cons.mp h with h1 | h1
        · exact h1.symm
        · exact absurd h1 hcs
      exact ⟨[], cs, by rw [hc]; simp, hcs⟩

lemma contains_iff_mem {α : Type} [BEq α] [LawfulBEq α] (l : List α) (a : α) :
    l.contains a = true ↔ a ∈ l := List.elem_iff

lemma mkdir_ok_shape (osErr : String → Option Nat) (fs : List String) (p : String)
    (fs2 : List String) (h : mkdir osErr fs p = .ok fs2) : fs2 = p :: fs := by
  unfold mkdir at h
  split at h
  · exact absurd h (by simp)
  · split at h
    · exact absurd h (by simp)
    · split at h
      · split at h
        · injection h with h
          exact h.symm
        · exact absurd h (by simp)
      · injection h with h
        exact h.symm

lemma mkdir_error17 (osErr : String → Option Nat) (fs : List String) (p : String)
    (h : mkdir osErr fs p = .error 17) :
    fs.contains p = true ∨ (fs.contains p = false ∧ osErr p = some 17) := by
  by_cases h1 : fs.contains p = true
  · exact Or.inl h1
  · right
    simp only [mkdir] at h
    rw [if_neg h1] at h
    split at h
    · rename_i e heq
      injection h with h
      refine ⟨by simpa using h1, ?_⟩
      rw [heq, h]
    · split at h
      · split at h
        · exact absurd h (by simp)
        · injection h with h
          exact absurd h (by omega)
      · exact absurd h (by simp)

lemma makedirs_contains (osErr : String → Option Nat) (fs : List String) (p : String)
    (h : fs.contains p = true) : makedirs osErr fs p = .ok fs := by
  by_cases hp : p = ""
  · simp [makedirs, hp]
  · simp only [makedirs, if_neg hp, mkdir]
    rw [if_pos h]
    rfl

lemma makedirs_mono (osErr : String → Option Nat) (fs fs1 : List String) (p : String)
    (h : makedirs osErr fs p = .ok fs1) :
    ∀ x, fs.contains x = true → fs1.contains x = true := by
  intro x hx
  by_cases hp : p = ""
  · simp only [makedirs, if_pos hp] at h
    injection h with h
    rw [← h]
    exact hx
  · simp only [makedirs, if_neg hp] at h
    cases hm : mkdir osErr fs p with
    | ok fs2 =>
      rw [hm] at h
      simp only at h
      injection h with h
      have h2 := mkdir_ok_shape osErr fs p fs2 hm
      rw [← h, h2]
      exact (contains_iff_mem _ _).mpr
        (List.mem_cons_of_mem _ ((contains_iff_mem _ _).mp hx))
    | error e =>
      rw [hm] at h
      simp only at h
      by_cases he : e = 17
      · rw [if_pos he] at h
        injection h with h
        rw [← h]
        exact hx
      · rw [if_neg he] at h
        exact absurd h (by simp)

lemma makedirs_ok_cases (osErr : String → Option Nat) (fs fs1 : List String) (p : String)
    (h : makedirs osErr fs p = .ok fs1) (hp : ¬p = "") :
    fs1.contains p = true ∨ (fs.contains p = false ∧ osErr p = some 17 ∧ fs1 = fs) := by
  simp only [makedirs, if_neg hp] at h
  cases hm : mkdir osErr fs p with
  | ok fs2 =>
    rw [hm] at h
    simp only at h
    injection h with h
    left
    rw [← h, mkdir_ok_shape osErr fs p fs2 hm]
    exact (contains_iff_mem _ _).mpr (List.mem_cons_self _ _)
  | error e =>
    rw [hm] at h
    simp only at h
    by_cases he : e = 17
    · rw [if_pos he] at h
      injection h with h
      subst he
      rcases mkdir_error17 osErr fs p hm with h17 | ⟨hnc, ho⟩
      · left
        rw [← h]
        exact h17
      · exact Or.inr ⟨hnc, ho, h.symm⟩
    · rw [if_neg he] at h
      exact absurd h (by simp)

lemma create_dirs_go_mono (osErr : String → Option Nat) :
    ∀ (parts : List String) (fs : List String) (pathAcc : String) (fs1 : List String),
      create_dirs_go osErr fs pathAcc parts = .ok fs1 →
      ∀ x, fs.contains x = true → fs1.contains x = true := by
  intro parts
  induction parts with
  | nil =>
    intro fs pathAcc fs1 h x hx
    simp only [create_dirs_go] at h
    injection h with h
    rw [← h]
    exact hx
  | cons part rest ih =>
    intro fs pathAcc fs1 h x hx
    simp only [create_dirs_go] at h
    cases hm : makedirs osErr fs (strDropLast (pathAcc ++ part ++ "/")) with
    | error e =>
      rw [hm] at h
      exact absurd h (by simp)
    | ok fsa =>
      rw [hm] at h
      exact ih fsa _ fs1 h x (makedirs_mono osErr fs fsa _ hm x hx)

lemma create_dirs_go_twice (osErr : String → Option Nat) :
    ∀ (parts : List String) (fs : List String) (pathAcc : String) (fs1 : List String),
      create_dirs_go osErr fs pathAcc parts = .ok fs1 →
      create_dirs_go osErr fs1 pathAcc parts = .ok fs1 := by
  intro parts
  induction parts with
  | nil =>
    intro fs pathAcc fs1 h
    simp only [create_dirs_go] at h ⊢
  | cons part rest ih =>
    intro fs pathAcc fs1 h
    simp only [create_dirs_go] at h ⊢
    cases hm : makedirs osErr fs (strDropLast (pathAcc ++ part ++ "/")) with
    | error e =>
      rw [hm] at h
      exact absurd h (by simp)
    | ok fsa =>
      rw [hm] at h
      have hmono := create_dirs_go_mono osErr rest fsa _ fs1 h
      have hsec : makedirs osErr fs1 (strDropLast (pathAcc ++ part ++ "/")) = .ok fs1 := by
        by_cases hp : strDropLast (pathAcc ++ part ++ "/") = ""
        · simp [makedirs, hp]
        · rcases makedirs_ok_cases osErr fs fsa _ hm hp with hin | ⟨hnc, ho17, hfsa⟩
          · exact makedirs_contains osErr fs1 _ (hmono _ hin)
          · by_cases hin1 : fs1.contains (strDropLast (pathAcc ++ part ++ "/")) = true
            · exact makedirs_contains osErr fs1 _ hin1
            · have hmk : mkdir osErr fs1 (strDropLast (pathAcc ++ part ++ "/")) =
                  .error 17 := by
                simp only [mkdir]
                rw [if_neg hin1, ho17]
              simp only [makedirs, if_neg hp]
              rw [hmk]
              simp
      rw [hsec]
      exact ih fsa _ fs1 h

lemma create_dirs_twice (osErr : String → Option Nat) (fs : List String) (p : String)
    (fs1 : List String) (h : create_dirs osErr fs p = .ok fs1) :
    create_dirs osErr fs1 p = .ok fs1 := by
  simp only [create_dirs] at h ⊢
  by_cases hd : (if p.data.contains '/' = true then String.mk (dropLastComponent p.data)
      else "") = ""
  · rw [if_pos hd] at h ⊢
  · rw [if_neg hd] at h ⊢
    exact create_dirs_go_twice osErr _ fs "" fs1 h

lemma str_eq_of_data (s t : String) (h : s.data = t.data) : s = t := by
  cases s
  cases t
  exact congrArg String.mk h

lemma data_append3 (a b : String) : (a ++ b ++ "/").data = (a.data ++ b.data) ++ ['/'] := by
  rw [String.data_append, String.data_append]

lemma strDropLast_data (a b : String) :
    (strDropLast (a ++ b ++ "/")).data = a.data ++ b.data := by
  show ((a ++ b ++ "/").data).dropLast = a.data ++ b.data
  rw [data_append3, List.dropLast_concat]

lemma create_dirs_go_ok (osErr : String → Option Nat) (hos : ∀ d, osErr d = none) :
    ∀ (parts : List String) (fs : List String) (pathAcc : String),
      (∀ part ∈ parts, part.data ≠ [] ∧ '/' ∉ part.data) →
      (pathAcc = "" ∨
        ∃ cs, pathAcc.data = cs ++ ['/'] ∧ fs.contains (String.mk cs) = true) →
      ∃ fs1, create_dirs_go osErr fs pathAcc parts = .ok fs1 := by
  intro parts
  induction parts with
  | nil =>
    intro fs pathAcc _ _
    exact ⟨fs, by simp [create_dirs_go]⟩
  | cons part rest ih =>
    intro fs pathAcc hparts hinv
    obtain ⟨hpne, hpns⟩ := hparts part (List.mem_cons_self _ _)
    have hargdata : (strDropLast (pathAcc ++ part ++ "/")).data =
        pathAcc.data ++ part.data := strDropLast_data pathAcc part
    have hargne : ¬strDropLast (pathAcc ++ part ++ "/") = "" := by
      intro hh
      have h0 : (strDropLast (pathAcc ++ part ++ "/")).data = [] := by
        rw [hh]
      rw [hargdata] at h0
      exact hpne (List.append_eq_nil.mp h0).2
    have hstep : ∃ fsa, makedirs osErr fs (strDropLast (pathAcc ++ part ++ "/")) = .ok fsa ∧
        fsa.contains (strDropLast (pathAcc ++ part ++ "/")) = true := by
      by_cases hc : fs.contains (strDropLast (pathAcc ++ part ++ "/")) = true
      · exact ⟨fs, makedirs_contains osErr fs _ hc, hc⟩
      · have hmk : mkdir osErr fs (strDropLast (pathAcc ++ part ++ "/")) =
            .ok (strDropLast (pathAcc ++ part ++ "/") :: fs) := by
          simp only [mkdir]
          rw [if_neg hc, hos _]
          dsimp only
          rcases hinv with hpa | ⟨cs, hdata, hcs⟩
          · have hnoslash :
                ¬(strDropLast (pathAcc ++ part ++ "/")).data.contains '/' = true := by
              intro hx
              have hmem := (contains_iff_mem _ _).mp hx
              rw [hargdata, hpa] at hmem
              have h9 : ("" : String).data = ([] : List Char) := rfl
              rw [h9, List.nil_append] at hmem
              exact hpns hmem
            rw [if_neg hnoslash]
          · have hslash :
                (strDropLast (pathAcc ++ part ++ "/")).data.contains '/' = true := by
              apply (contains_iff_mem _ _).mpr
              rw [hargdata, hdata]
              simp
            rw [if_pos hslash]
            have hparent :
                dropLastComponent (strDropLast (pathAcc ++ part ++ "/")).data = cs := by
              rw [hargdata, hdata]
              have h2 : cs ++ ['/'] ++ part.data = cs ++ '/' :: part.data := by simp
              rw [h2, dropLastComponent_append cs part.data hpns]
            rw [hparent, if_pos hcs]
        refine ⟨strDropLast (pathAcc ++ part ++ "/") :: fs, ?_, ?_⟩
        · simp only [makedirs, if_neg hargne]
          rw [hmk]
        · exact (contains_iff_mem _ _).mpr (List.mem_cons_self _ _)
    obtain ⟨fsa, hmd, hcont⟩ := hstep
    have hinv2 : (pathAcc ++ part ++ "/") = "" ∨
        ∃ cs, (pathAcc ++ part ++ "/").data = cs ++ ['/'] ∧
          fsa.contains (String.mk cs) = true := by
      right
      refine ⟨pathAcc.data ++ part.data, data_append3 pathAcc part, ?_⟩
      have harg : String.mk (pathAcc.data ++ part.data) =
          strDropLast (pathAcc ++ part ++ "/") :=
        str_eq_of_data _ _ (by rw [hargdata])
      rw [harg]
      exact hcont
    obtain ⟨fs1, hrest⟩ := ih fsa (pathAcc ++ part ++ "/")
      (fun q hq => hparts q (List.mem_cons_of_mem _ hq)) hinv2
    refine ⟨fs1, ?_⟩
    simp only [create_dirs_go]
    rw [hmd]
    exact hrest

lemma create_dirs_ok (osErr : String → Option Nat) (hos : ∀ d, osErr d = none)
    (fs : List String) (p : String) (hv : validPath p) :
    ∃ fs1, create_dirs osErr fs p = .ok fs1 := by
  obtain ⟨hpne, hcomp⟩ := hv
  by_cases hsl : p.data.contains '/' = true
  · have hmem : '/' ∈ p.data := (contains_iff_mem _ _).mp hsl
    obtain ⟨xs, part, hdecomp, hnp⟩ := slash_decomp p.data hmem
    have hchunks : splitChars p.data [] = splitChars xs [] ++ splitChars part [] := by
      rw [hdecomp, splitChars_append_slash]
    have hdl : dropLastComponent p.data = xs := by
      rw [hdecomp, dropLastComponent_append xs part hnp]
    have hxs_ne : xs ≠ [] := by
      intro h0
      have hmem0 : ([] : List Char) ∈ splitChars p.data [] := by
        rw [hchunks, h0]
        simp [splitChars]
      exact hcomp [] hmem0 rfl
    have hdp_ne : ¬String.mk xs = "" := by
      intro hh
      exact hxs_ne (congrArg String.data hh)
    simp only [create_dirs]
    rw [if_pos hsl, hdl, if_neg hdp_ne]
    apply create_dirs_go_ok osErr hos _ fs ""
    · intro q hq
      simp only [splitSlash, List.mem_map] at hq
      obtain ⟨chunk, hchunk, hqeq⟩ := hq
      have hchunk2 : chunk ∈ splitChars p.data [] := by
        rw [hchunks]
        exact List.mem_append_left _ hchunk
      constructor
      · rw [← hqeq]
        exact hcomp chunk hchunk2
      · rw [← hqeq]
        exact splitChars_no_slash_mem xs [] chunk hchunk (by simp)
    · exact Or.inl rfl
  · refine ⟨fs, ?_⟩
    simp only [create_dirs]
    rw [if_neg hsl, if_pos rfl]

lemma receive_file_no_special (osErr : String → Option Nat) (st : SrvState) (e : FileEntry) :
    Ev.reset ∉ (receive_file osErr st e).1 ∧
    Ev.send "UPDATE_SUCCESS" ∉ (receive_file osErr st e).1 ∧
    Ev.send "FAIL" ∉ (receive_file osErr st e).1 := by
  refine ⟨?_, ?_, ?_⟩ <;> intro hmem <;>
    rcases receive_file_events osErr st e _ hmem with ⟨ch, h⟩ | ⟨p, ch, h⟩ | h <;>
    simp at h

lemma process_files_events (osErr : String → Option Nat) :
    ∀ (entries : List FileEntry) (st : SrvState) (ev : Ev),
      ev ∈ (process_files osErr st entries).1 →
      (∃ ch, ev = Ev.recv ch) ∨ (∃ p ch, ev = Ev.fwrite p ch) ∨ ev = Ev.send "OK" ∨
      ev ∈ [Ev.send "UPDATE_SUCCESS", Ev.closeConn, Ev.sleepEv, Ev.reset] := by
  intro entries
  induction entries with
  | nil =>
    intro st ev hev
    simp only [process_files] at hev
    exact Or.inr (Or.inr (Or.inr hev))
  | cons e rest ih =>
    intro st ev hev
    simp only [process_files] at hev
    cases hfo : (receive_file osErr st e).2.2 <;> rw [hfo] at hev <;> dsimp only at hev
    · rcases List.mem_append.mp hev with hm | hm
      · rcases receive_file_events osErr st e ev hm with h | h | h
        · exact Or.inl h
        · exact Or.inr (Or.inl h)
        · exact Or.inr (Or.inr (Or.inl h))
      · exact ih _ ev hm
    · rcases receive_file_events osErr st e ev hev with h | h | h
      · exact Or.inl h
      · exact Or.inr (Or.inl h)
      · exact Or.inr (Or.inr (Or.inl h))
    · rcases receive_file_events osErr st e ev hev with h | h | h
      · exact Or.inl h
      · exact Or.inr (Or.inl h)
      · exact Or.inr (Or.inr (Or.inl h))

lemma process_files_no_fail (osErr : String → Option Nat) (st : SrvState)
    (entries : List FileEntry) :
    Ev.send "FAIL" ∉ (process_files osErr st entries).1 := by
  intro hmem
  rcases process_files_events osErr entries st _ hmem with ⟨ch, h⟩ | ⟨p, ch, h⟩ | h | h <;>
    simp at h

lemma process_files_fail_count (osErr : String → Option Nat) (st : SrvState)
    (entries : List FileEntry) :
    countFailSends (process_files osErr st entries).1 = 0 := by
  unfold countFailSends
  rw [List.length_eq_zero, List.filter_eq_nil_iff]
  intro a ha
  simp only [decide_eq_true_eq]
  intro heq
  subst heq
  exact process_files_no_fail osErr st entries ha

lemma process_files_not_completed (osErr : String → Option Nat) :
    ∀ (entries : List FileEntry) (st : SrvState) (evs : List Ev) (st2 : SrvState)
      (out : SessOutcome),
      process_files osErr st entries = (evs, st2, out) → out ≠ SessOutcome.completed →
      Ev.reset ∉ evs ∧ Ev.send "UPDATE_SUCCESS" ∉ evs := by
  intro entries
  induction entries with
  | nil =>
    intro st evs st2 out h hne
    simp only [process_files] at h
    injection h with h1 h2
    injection h2 with h2 h3
    exact absurd h3.symm hne
  | cons e rest ih =>
    intro st evs st2 out h hne
    simp only [process_files] at h
    obtain ⟨hns1, hns2, _⟩ := receive_file_no_special osErr st e
    cases hfo : (receive_file osErr st e).2.2 <;> rw [hfo] at h <;> dsimp only at h <;>
      injection h with h1 h2 <;> injection h2 with h2 h3
    · subst h1
      have hr2 : process_files osErr (receive_file osErr st e).2.1 rest =
          ((process_files osErr (receive_file osErr st e).2.1 rest).1,
           (process_files osErr (receive_file osErr st e).2.1 rest).2.1,
           (process_files osErr (receive_file osErr st e).2.1 rest).2.2) := rfl
      obtain ⟨hrr, hru⟩ := ih ((receive_file osErr st e).2.1) _ _ _ hr2
        (by rw [h3]; exact hne)
      constructor
      · intro hmem
        rcases List.mem_append.mp hmem with hm | hm
        · exact hns1 hm
        · exact hrr hm
      · intro hmem
        rcases List.mem_append.mp hmem with hm | hm
        · exact hns2 hm
        · exact hru hm
    · subst h1
      exact ⟨hns1, hns2⟩
    · subst h1
      exact ⟨hns1, hns2⟩

lemma process_files_completed_suffix (osErr : String → Option Nat) :
    ∀ (entries : List FileEntry) (st : SrvState) (evs : List Ev) (st2 : SrvState),
      process_files osErr st entries = (evs, st2, SessOutcome.completed) →
      ∃ evs0,
        evs = evs0 ++ [Ev.send "UPDATE_SUCCESS", Ev.closeConn, Ev.sleepEv, Ev.reset] ∧
        Ev.reset ∉ evs0 ∧ Ev.send "UPDATE_SUCCESS" ∉ evs0 := by
  intro entries
  induction entries with
  | nil =>
    intro st evs st2 h
    simp only [process_files] at h
    injection h with h1 h2
    exact ⟨[], by rw [← h1]; simp, by simp, by simp⟩
  | cons e rest ih =>
    intro st evs st2 h
    simp only [process_files] at h
    obtain ⟨hns1, hns2, _⟩ := receive_file_no_special osErr st e
    cases hfo : (receive_file osErr st e).2.2 <;> rw [hfo] at h <;> dsimp only at h <;>
      injection h with h1 h2 <;> injection h2 with h2 h3
    · have hr2 : process_files osErr (receive_file osErr st e).2.1 rest =
          ((process_files osErr (receive_file osErr st e).2.1 rest).1,
           (process_files osErr (receive_file osErr st e).2.1 rest).2.1,
           SessOutcome.completed) := by
        rw [← h3]
      obtain ⟨evs0, heq0, hnr0, hnu0⟩ := ih ((receive_file osErr st e).2.1) _ _ hr2
      refine ⟨(receive_file osErr st e).1 ++ evs0, ?_, ?_, ?_⟩
      · rw [← h1, heq0, List.append_assoc]
      · intro hmem
        rcases List.mem_append.mp hmem with hm | hm
        · exact hns1 hm
        · exact hnr0 hm
      · intro hmem
        rcases List.mem_append.mp hmem with hm | hm
        · exact hns2 hm
        · exact hnu0 hm
    · exact absurd h3.symm (by simp)
    · exact absurd h3.symm (by simp)

lemma sizeSum_cons (e : FileEntry) (rest : List FileEntry) :
    sizeSum (e :: rest) = e.size + sizeSum rest := by
  simp [sizeSum]

lemma process_files_success (osErr : String → Option Nat) (hos : ∀ d, osErr d = none) :
    ∀ (entries : List FileEntry) (st : SrvState),
      (∀ e ∈ entries, validPath e.path) →
      sizeSum entries ≤ st.stream.length →
      sizeSum entries ≤ st.sched.length →
      (∀ k ∈ st.sched, 1 ≤ k) →
      ∃ evs0 fs1 n,
        process_files osErr st entries =
          (evs0 ++ [Ev.send "UPDATE_SUCCESS", Ev.closeConn, Ev.sleepEv, Ev.reset],
           ⟨fs1, st.written ++ slices st.stream entries,
            st.stream.drop (sizeSum entries), st.sched.drop n⟩,
           SessOutcome.completed) ∧
        n ≤ sizeSum entries ∧
        evs0.filter isSend = List.replicate entries.length (Ev.send "OK") := by
  intro entries
  induction entries with
  | nil =>
    intro st _ _ _ _
    refine ⟨[], st.fs, 0, ?_, le_refl 0, by simp⟩
    cases st
    simp [process_files, slices, sizeSum]
  | cons e rest ih =>
    intro st hvalid hstream hsched hks
    have hv := hvalid e (List.mem_cons_self _ _)
    obtain ⟨fsd, hcd⟩ := create_dirs_ok osErr hos st.fs e.path hv
    have hes : e.size ≤ st.stream.length := by
      rw [sizeSum_cons] at hstream
      omega
    have hec : e.size ≤ st.sched.length := by
      rw [sizeSum_cons] at hsched
      omega
    obtain ⟨evsF, nF, hrf, hnF, hfilterF⟩ :=
      receive_file_success osErr st e fsd hcd hes hec hks
    obtain ⟨evs0, fs1, n2, hrec, hn2, hfilter2⟩ :=
      ih ⟨fsd, st.written ++ [(e.path, st.stream.take e.size)],
          st.stream.drop e.size, st.sched.drop nF⟩
        (fun q hq => hvalid q (List.mem_cons_of_mem _ hq))
        (by show sizeSum rest ≤ (st.stream.drop e.size).length
            rw [List.length_drop]
            rw [sizeSum_cons] at hstream
            omega)
        (by show sizeSum rest ≤ (st.sched.drop nF).length
            rw [List.length_drop]
            rw [sizeSum_cons] at hsched
            omega)
        (fun k hk => hks k (List.mem_of_mem_drop hk))
    refine ⟨(evsF ++ [Ev.send "OK"]) ++ evs0, fs1, n2 + nF, ?_, ?_, ?_⟩
    · simp only [process_files]
      rw [hrf]
      dsimp only
      rw [hrec]
      dsimp only
      have h_drop : (st.stream.drop e.size).drop (sizeSum rest) =
          st.stream.drop (sizeSum (e :: rest)) := by
        rw [List.drop_drop, sizeSum_cons]
      have h_sched : (st.sched.drop nF).drop n2 = st.sched.drop (n2 + nF) := by
        rw [List.drop_drop, Nat.add_comm]
      rw [h_drop, h_sched]
      simp only [slices, List.append_assoc, List.singleton_append, List.cons_append,
        List.nil_append]
    · rw [sizeSum_cons]
      omega
    · rw [List.filter_append, List.filter_append, hfilterF, hfilter2]
      simp [List.replicate_succ, isSend]

lemma readLoop_flatten : ∀ (fuel : Nat) (l : List Nat), l.length ≤ fuel →
    (readLoop fuel l).flatten = l := by
  intro fuel
  induction fuel with
  | zero =>
    intro l h
    have h0 : l = [] := List.length_eq_zero.mp (Nat.le_zero.mp h)
    subst h0
    simp [readLoop]
  | succ n ih =>
    intro l h
    cases l with
    | nil => simp [readLoop]
    | cons b bs =>
      simp only [readLoop, List.flatten_cons]
      rw [ih ((b :: bs).drop 1024) (by simp at h ⊢; omega)]
      exact List.take_append_drop _ _

lemma readChunks_flatten (l : List Nat) : (readChunks l).flatten = l :=
  readLoop_flatten l.length l (le_refl _)

lemma client_payload_eq (cf : List (String × List Nat)) :
    client_payload_bytes cf = (cf.map (fun f => f.2)).flatten := by
  induction cf with
  | nil => simp [client_payload_bytes, client_send_files]
  | cons f rest ih =>
    simp only [client_payload_bytes, client_send_files] at ih ⊢
    rw [List.filterMap_append, List.filterMap_cons, List.flatten_append]
    simp only [List.filterMap_map]
    have h1 : List.filterMap
        ((fun ev => match ev with
          | CEv.csend bs => some bs
          | CEv.cawait _ => none) ∘ CEv.csend) (readChunks f.2) = readChunks f.2 := by
      have : ((fun ev => match ev with
          | CEv.csend bs => some bs
          | CEv.cawait _ => none) ∘ CEv.csend) = fun bs => some bs := rfl
      rw [this, List.filterMap_some]
    rw [h1]
    simp only [List.map_cons, List.flatten_cons]
    rw [readChunks_flatten, ih]

lemma client_await_count (cf : List (String × List Nat)) :
    (client_send_files cf).countP (fun ev => match ev with
      | CEv.cawait _ => true
      | CEv.csend _ => false) = cf.length := by
  induction cf with
  | nil => simp [client_send_files]
  | cons f rest ih =>
    simp only [client_send_files, List.countP_append, List.countP_cons]
    have h0 : ((readChunks f.2).map CEv.csend).countP (fun ev => match ev with
        | CEv.cawait _ => true
        | CEv.csend _ => false) = 0 := by
      rw [List.countP_eq_zero]
      intro a ha
      obtain ⟨bs, _, rfl⟩ := List.mem_map.mp ha
      simp
    rw [h0, ih]
    simp

lemma slices_flatten :
    ∀ (cf : List (String × List Nat)),
      slices ((cf.map (fun f => f.2)).flatten) (gather_files cf) = cf := by
  intro cf
  induction cf with
  | nil => simp [slices, gather_files]
  | cons f rest ih =>
    simp only [gather_files, List.map_cons, List.flatten_cons, slices]
    rw [List.take_left, List.drop_left]
    simp only [gather_files] at ih
    rw [ih]

lemma sizeSum_gather (cf : List (String × List Nat)) :
    sizeSum (gather_files cf) = (cf.map (fun f => f.2.length)).sum := by
  simp only [sizeSum, gather_files, List.map_map]
  have h : (FileEntry.size ∘ fun f : String × List Nat =>
      ({ path := f.1, size := f.2.length } : FileEntry)) = fun f => f.2.length := rfl
  rw [h]

lemma payload_length (cf : List (String × List Nat)) :
    (client_payload_bytes cf).length = (cf.map (fun f => f.2.length)).sum := by
  rw [client_payload_eq, List.length_flatten, List.map_map]
  have h : (List.length ∘ fun f : String × List Nat => f.2) = fun f => f.2.length := rfl
  rw [h]

lemma countFailSends_append (a b : List Ev) :
    countFailSends (a ++ b) = countFailSends a + countFailSends b := by
  unfold countFailSends
  rw [List.filter_append, List.length_append]

lemma handle_client_connection_cases (authOk bodyRaises s1 s2 : Bool) (bodyEvs : List Ev) :
    ((handle_client_connection authOk bodyRaises s1 s2 bodyEvs).2 = Except.ok ()) ∧
    ((handle_client_connection authOk bodyRaises s1 s2 bodyEvs).1 = [] ∨
     (handle_client_connection authOk bodyRaises s1 s2 bodyEvs).1 = bodyEvs ∨
     (handle_client_connection authOk bodyRaises s1 s2 bodyEvs).1 =
       bodyEvs ++ [Ev.send "FAIL"]) := by
  cases authOk <;> cases bodyRaises <;> cases s1 <;> cases s2 <;>
    simp [handle_client_connection, send_fail_attempt]

/-- C5: for every challenge and shared secret, the client's response
and the server's expectation are both the hex-encoded digest of
`challenge ++ secret` computed by the same external hash, and the
server accepts an attempt exactly when the received response is
byte-equal to its independently computed expectation. -/
theorem c5_auth_response_agreement (H : String → List Nat)
    (secret challenge response : String) :
    client_auth_response H secret challenge = server_expected H secret challenge ∧
    (verify_response H secret challenge response = true ↔
      response = server_expected H secret challenge) := by
  refine ⟨rfl, ?_⟩
  simp [verify_response]

/-- C8: no exception escapes the per-connection boundary: the session
handler always returns normally, converts a raising body into at most
one `FAIL` notification (whose own send failure is swallowed), and one
iteration of the accept loop never lets any exception escape, so the
listening loop keeps running after any failed session. -/
theorem c8_no_escape :
    (∀ (authOk bodyRaises sendRaises1 sendRaises2 : Bool) (osErr : String → Option Nat)
        (st : SrvState) (entries : List FileEntry),
      (handle_client_connection authOk bodyRaises sendRaises1 sendRaises2
          (process_files osErr st entries).1).2 = Except.ok () ∧
      countFailSends (handle_client_connection authOk bodyRaises sendRaises1 sendRaises2
          (process_files osErr st entries).1).1 ≤ 1) ∧
    (∀ handler closeRes : Except Unit Unit,
      start_server_iteration handler closeRes = Except.ok ()) := by
  constructor
  · intro authOk bodyRaises s1 s2 osErr st entries
    obtain ⟨hok, hcases⟩ := handle_client_connection_cases authOk bodyRaises s1 s2
      (process_files osErr st entries).1
    refine ⟨hok, ?_⟩
    have hc := process_files_fail_count osErr st entries
    rcases hcases with h | h | h <;> rw [h]
    · simp [countFailSends]
    · omega
    · rw [countFailSends_append, hc]
      simp [countFailSends]
  · intro handler closeRes
    cases handler <;> cases closeRes <;>
      simp [start_server_iteration, pyTryAll, pyFinally]

/-- C7: on completing every file successfully the server performs
exactly the sequence: send the 14-byte literal `UPDATE_SUCCESS`, close
the socket, sleep briefly, then unconditionally restart the device; no
other step sits between them, and no restart ever happens on a
non-completed session. -/
theorem c7_success_sequence :
    ("UPDATE_SUCCESS".length = 14) ∧
    (∀ (osErr : String → Option Nat) (st : SrvState) (entries : List FileEntry)
        (evs : List Ev) (st2 : SrvState),
      process_files osErr st entries = (evs, st2, SessOutcome.completed) →
      ∃ evs0,
        evs = evs0 ++ [Ev.send "UPDATE_SUCCESS", Ev.closeConn, Ev.sleepEv, Ev.reset] ∧
        Ev.reset ∉ evs0 ∧ Ev.send "UPDATE_SUCCESS" ∉ evs0) ∧
    (∀ (osErr : String → Option Nat) (st : SrvState) (entries : List FileEntry)
        (evs : List Ev) (st2 : SrvState) (out : SessOutcome),
      process_files osErr st entries = (evs, st2, out) → out ≠ SessOutcome.completed →
      Ev.reset ∉ evs) := by
  refine ⟨by decide, ?_, ?_⟩
  · intro osErr st entries evs st2 h
    exact process_files_completed_suffix osErr entries st evs st2 h
  · intro osErr st entries evs st2 out h hne
    exact (process_files_not_completed osErr entries st evs st2 out h hne).1

/-- Witness for C7 at a concrete completed session. -/
theorem c7_success_sequence_witness :
    ∃ evs0, (process_files noErr cSt cEntries).1 =
      evs0 ++ [Ev.send "UPDATE_SUCCESS", Ev.closeConn, Ev.sleepEv, Ev.reset] ∧
      Ev.reset ∉ evs0 ∧ Ev.send "UPDATE_SUCCESS" ∉ evs0 :=
  c7_success_sequence.2.1 noErr cSt cEntries (process_files noErr cSt cEntries).1
    (process_files noErr cSt cEntries).2.1 (by decide)

/-- C9: creating the directory structure for the same nested path
twice via the materializer never errors: a second run of the directory
creation loop succeeds and leaves the filesystem unchanged, an
already-existing directory is success for `_makedirs`, and any other
directory-creation failure makes `_receive_file` abort that file with
`False`. -/
theorem c9_materializer_idempotent :
    (∀ (osErr : String → Option Nat) (fs : List String) (p : String) (fs1 : List String),
      create_dirs osErr fs p = Except.ok fs1 → create_dirs osErr fs1 p = Except.ok fs1) ∧
    (∀ (osErr : String → Option Nat) (fs : List String) (p : String),
      fs.contains p = true → makedirs osErr fs p = Except.ok fs) ∧
    (∀ (osErr : String → Option Nat) (st : SrvState) (e : FileEntry) (n : Nat),
      create_dirs osErr st.fs e.path = Except.error n →
      receive_file osErr st e = ([], st, FileOutcome.failed)) := by
  refine ⟨?_, ?_, ?_⟩
  · intro osErr fs p fs1 h
    exact create_dirs_twice osErr fs p fs1 h
  · intro osErr fs p h
    exact makedirs_contains osErr fs p h
  · intro osErr st e n h
    simp only [receive_file]
    rw [h]

/-- Witness for C9: rebuilding `d/b.txt`'s directory over an existing
`d` succeeds unchanged, `_makedirs` on an existing directory succeeds,
and an injected `ENOSPC` aborts the file with `False`. -/
theorem c9_materializer_idempotent_witness :
    create_dirs noErr ["d"] "d/b.txt" = Except.ok ["d"] ∧
    makedirs noErr ["d"] "d" = Except.ok ["d"] ∧
    receive_file errOsErr ⟨[], [], [7], [5]⟩ ⟨"d/b.txt", 1⟩ =
      ([], ⟨[], [], [7], [5]⟩, FileOutcome.failed) :=
  ⟨c9_materializer_idempotent.1 noErr [] "d/b.txt" ["d"] (by rfl),
   c9_materializer_idempotent.2.1 noErr ["d"] "d" (by decide),
   c9_materializer_idempotent.2.2 errOsErr ⟨[], [], [7], [5]⟩ ⟨"d/b.txt", 1⟩ 28 (by rfl)⟩

/-- C10: the per-file receive loop reads at most `n` bytes for a file
of declared size `n` — every chunk it requests is bounded and the
stream advances by exactly the bytes consumed — and a successful
completion has written exactly `n` bytes, leaving the stream aligned
at the start of the next file's bytes. -/
theorem c10_receive_exact :
    (∀ (path : String) (n : Nat) (stream sched : List Nat),
      (receive_loop path n stream sched).2.got.length ≤ n ∧
      (receive_loop path n stream sched).2.stream =
        stream.drop (receive_loop path n stream sched).2.got.length ∧
      (∀ ch, Ev.recv ch ∈ (receive_loop path n stream sched).1 →
        ch.length ≤ min 1024 n) ∧
      ((receive_loop path n stream sched).2.status = RStatus.done →
        (receive_loop path n stream sched).2.got.length = n)) ∧
    (∀ (osErr : String → Option Nat) (st : SrvState) (e : FileEntry) (evs : List Ev)
        (st1 : SrvState),
      receive_file osErr st e = (evs, st1, FileOutcome.ok) →
      ∃ got, st1.written = st.written ++ [(e.path, got)] ∧ got.length = e.size ∧
        st1.stream = st.stream.drop e.size) := by
  constructor
  · intro path n stream sched
    obtain ⟨ha, hb, hc, hd⟩ := receive_loop_spec path sched n stream
    refine ⟨ha, hc, ?_, hd⟩
    intro ch hch
    rcases receive_loop_events path sched n stream _ hch with ⟨ch2, heq, hbound⟩ | ⟨ch2, heq⟩
    · injection heq with heq
      rw [heq]
      exact hbound
    · exact absurd heq (by simp)
  · intro osErr st e evs st1 hok
    exact receive_file_ok_spec osErr st e evs st1 hok

/-- Witness for C10: a 2-byte file delivered in 1-byte chunks is
written with exactly 2 bytes and the stream is advanced by 2; a
delivered chunk respects the request bound. -/
theorem c10_receive_exact_witness :
    (∃ got, (receive_file noErr cSt ⟨"a.txt", 2⟩).2.1.written =
        cSt.written ++ [("a.txt", got)] ∧ got.length = 2 ∧
        (receive_file noErr cSt ⟨"a.txt", 2⟩).2.1.stream = cSt.stream.drop 2) ∧
    ([1] : List Nat).length ≤ min 1024 2 :=
  ⟨c10_receive_exact.2 noErr cSt ⟨"a.txt", 2⟩ (receive_file noErr cSt ⟨"a.txt", 2⟩).1
      (receive_file noErr cSt ⟨"a.txt", 2⟩).2.1 (by decide),
   (c10_receive_exact.1 "a.txt" 2 [1, 2] [1, 1]).2.2.1 [1] (by decide)⟩

/-- Counterexample to C1: on a concrete completed session (one 2-byte
file delivered in two 1-byte chunks) the server writes file bytes
between socket receives, so the payload is not received into spooled
temporary storage before files are materialized. -/
theorem c1_not_spooled_counterexample : ¬c1_claim := by
  intro h
  have h2 := h noErr cSt cEntries (process_files noErr cSt cEntries).1
    (process_files noErr cSt cEntries).2.1 (by decide)
  exact absurd h2 (by decide)

/-- Counterexample to C2: with free space 0 and a manifest requiring 2
bytes, the server still requests payload bytes (the trace contains a
receive) and sends no `FAIL`, because the code performs no free-space
admission check at all. -/
theorem c2_no_admission_counterexample : ¬c2_claim := by
  intro h
  have h2 := (h 0 noErr cSt cEntries (by decide)).2 [1]
  exact h2 (by decide)

/-- Counterexample to C6: in a concrete completed session the server
sends the 2-byte token `OK` during the payload phase (after the file),
which is not the final outcome token. -/
theorem c6_unidirectional_counterexample : ¬c6_claim := by
  intro h
  have h2 := h noErr cSt cEntries (process_files noErr cSt cEntries).1
    (process_files noErr cSt cEntries).2.1 (by decide) "OK" (by decide)
  exact absurd h2 (by decide)

lemma process_files_state_start (osErr : String → Option Nat) (fs0 : List String)
    (stream sched : List Nat) (entries : List FileEntry)
    (hos : ∀ d, osErr d = none) (hvp : ∀ e ∈ entries, validPath e.path)
    (hstream : sizeSum entries ≤ stream.length)
    (hsched : sizeSum entries ≤ sched.length)
    (hks : ∀ k ∈ sched, 1 ≤ k) :
    ∃ evs0 fs1 n,
      process_files osErr ⟨fs0, [], stream, sched⟩ entries =
        (evs0 ++ [Ev.send "UPDATE_SUCCESS", Ev.closeConn, Ev.sleepEv, Ev.reset],
         ⟨fs1, slices stream entries, stream.drop (sizeSum entries), sched.drop n⟩,
         SessOutcome.completed) ∧
      evs0.filter isSend = List.replicate entries.length (Ev.send "OK") := by
  obtain ⟨evs0, fs1, n, heq, _, hfilter⟩ :=
    process_files_success osErr hos entries ⟨fs0, [], stream, sched⟩ hvp hstream hsched hks
  refine ⟨evs0, fs1, n, ?_, hfilter⟩
  rw [heq]
  dsimp only
  rw [List.nil_append]

/-- C1 amended: the payload is transferred uncompressed and sliced
in-flight: the client's wire bytes are exactly the raw concatenation
of the file contents in manifest order and the client waits for a
2-byte acknowledgment after each file, while the server cuts the raw
stream at the manifest-declared sizes, writing each file directly as
its bytes arrive and acknowledging each file with `OK` (no compressor,
no spool, no `compressed_size`). -/
theorem c1_amended_raw_stream_per_file (cf : List (String × List Nat))
    (osErr : String → Option Nat) (fs0 : List String) (sched : List Nat)
    (hos : ∀ d, osErr d = none) (hvp : ∀ f ∈ cf, validPath f.1)
    (hks : ∀ k ∈ sched, 1 ≤ k)
    (hlen : (cf.map (fun f => f.2.length)).sum ≤ sched.length) :
    (client_payload_bytes cf = (cf.map (fun f => f.2)).flatten) ∧
    ((client_send_files cf).countP (fun ev => match ev with
      | CEv.cawait _ => true
      | CEv.csend _ => false) = cf.length) ∧
    ∃ evs0 fs1 n,
      process_files osErr ⟨fs0, [], client_payload_bytes cf, sched⟩ (gather_files cf) =
        (evs0 ++ [Ev.send "UPDATE_SUCCESS", Ev.closeConn, Ev.sleepEv, Ev.reset],
         ⟨fs1, slices (client_payload_bytes cf) (gather_files cf),
          [], sched.drop n⟩,
         SessOutcome.completed) ∧
      evs0.filter isSend = List.replicate cf.length (Ev.send "OK") := by
  refine ⟨client_payload_eq cf, client_await_count cf, ?_⟩
  obtain ⟨evs0, fs1, n, heq, hfilter⟩ :=
    process_files_state_start osErr fs0 (client_payload_bytes cf) sched (gather_files cf)
      hos
      (by intro e he
          obtain ⟨f, hf, rfl⟩ := List.mem_map.mp he
          exact hvp f hf)
      (by rw [sizeSum_gather, payload_length])
      (by rw [sizeSum_gather]; exact hlen)
      hks
  refine ⟨evs0, fs1, n, ?_, ?_⟩
  · rw [heq]
    have hnil : (client_payload_bytes cf).drop (sizeSum (gather_files cf)) = [] := by
      apply List.drop_eq_nil_of_le
      rw [payload_length, sizeSum_gather]
    rw [hnil]
  · rw [hfilter]
    congr 1
    simp [gather_files]

lemma receive_file_head (osErr : String → Option Nat) (st : SrvState) (e : FileEntry)
    (fs1 : List String) (hcd : create_dirs osErr st.fs e.path = .ok fs1)
    (hsz : 0 < e.size) (hstream : st.stream ≠ []) (k : Nat) (ks : List Nat)
    (hsched : st.sched = k :: ks) (hk : 1 ≤ k) :
    ∃ ch tail, (receive_file osErr st e).1 = Ev.recv ch :: tail := by
  simp only [receive_file]
  rw [hcd]
  dsimp only
  rw [hsched]
  have h0 : ¬e.size = 0 := by omega
  have hpos : 0 < st.stream.length := List.length_pos.mpr hstream
  have hchunk : ¬(st.stream.take (min (min 1024 e.size) k)).length = 0 := by
    rw [List.length_take]
    omega
  rw [receive_loop_cons_pos e.path e.size st.stream k ks h0 hchunk]
  dsimp only
  cases (receive_loop e.path
      (e.size - (st.stream.take (min (min 1024 e.size) k)).length)
      (st.stream.drop (st.stream.take (min (min 1024 e.size) k)).length) ks).2.status
  · exact ⟨st.stream.take (min (min 1024 e.size) k), _, rfl⟩
  · exact ⟨st.stream.take (min (min 1024 e.size) k), _, rfl⟩
  · exact ⟨st.stream.take (min (min 1024 e.size) k), _, rfl⟩

lemma process_files_cons_head (osErr : String → Option Nat) (st : SrvState) (e : FileEntry)
    (rest : List FileEntry) (ch : List Nat) (tail : List Ev)
    (h : (receive_file osErr st e).1 = Ev.recv ch :: tail) :
    ∃ q, (process_files osErr st (e :: rest)).1 = Ev.recv ch :: q := by
  simp only [process_files]
  cases hfo : (receive_file osErr st e).2.2 <;> dsimp only
  · exact ⟨tail ++ (process_files osErr (receive_file osErr st e).2.1 rest).1,
      by rw [h]; simp⟩
  · exact ⟨tail, by rw [h]⟩
  · exact ⟨tail, by rw [h]⟩

/-- C2 amended: the server performs no storage admission check: the
file-processing phase never sends `FAIL` on any input, and with any
well-formed first entry it immediately issues a payload read —
regardless of any notion of free space, which the code never consults.
-/
theorem c2_amended_no_space_check :
    (∀ (osErr : String → Option Nat) (st : SrvState) (entries : List FileEntry),
      Ev.send "FAIL" ∉ (process_files osErr st entries).1) ∧
    (∀ (osErr : String → Option Nat) (st : SrvState) (e : FileEntry)
        (rest : List FileEntry) (fs1 : List String) (k : Nat) (ks : List Nat),
      create_dirs osErr st.fs e.path = Except.ok fs1 → 0 < e.size → st.stream ≠ [] →
      st.sched = k :: ks → 1 ≤ k →
      ∃ ch q, (process_files osErr st (e :: rest)).1 = Ev.recv ch :: q) := by
  constructor
  · intro osErr st entries
    exact process_files_no_fail osErr st entries
  · intro osErr st e rest fs1 k ks hcd hsz hstream hsched hk
    obtain ⟨ch, tail, hhead⟩ :=
      receive_file_head osErr st e fs1 hcd hsz hstream k ks hsched hk
    obtain ⟨q, hq⟩ := process_files_cons_head osErr st e rest ch tail hhead
    exact ⟨ch, q, hq⟩

/-- Witness for the amended C2: a concrete session whose first trace
event is a payload receive, with no admission step before it. -/
theorem c2_amended_no_space_check_witness :
    ∃ ch q, (process_files noErr cSt (⟨"a.txt", 2⟩ :: [])).1 = Ev.recv ch :: q :=
  c2_amended_no_space_check.2 noErr cSt ⟨"a.txt", 2⟩ [] [] 1 [1] (by rfl) (by decide)
    (by decide) (by decide) (by decide)

/-- C3: for every set of files and every chunking of the network
stream into arbitrary-sized reads, a successful session writes files
byte-identical to the client's original files: the server's final
`written` list is exactly the client's `(path, content)` list. -/
theorem c3_roundtrip (cf : List (String × List Nat)) (osErr : String → Option Nat)
    (fs0 : List String) (sched : List Nat)
    (hos : ∀ d, osErr d = none)
    (hvp : ∀ f ∈ cf, validPath f.1)
    (hks : ∀ k ∈ sched, 1 ≤ k)
    (hlen : (cf.map (fun f => f.2.length)).sum ≤ sched.length) :
    ∃ evs fs1 n,
      process_files osErr ⟨fs0, [], client_payload_bytes cf, sched⟩ (gather_files cf) =
        (evs, ⟨fs1, cf, [], sched.drop n⟩, SessOutcome.completed) := by
  obtain ⟨evs0, fs1, n, heq, _⟩ :=
    process_files_state_start osErr fs0 (client_payload_bytes cf) sched (gather_files cf)
      hos
      (by intro e he
          obtain ⟨f, hf, rfl⟩ := List.mem_map.mp he
          exact hvp f hf)
      (by rw [sizeSum_gather, payload_length])
      (by rw [sizeSum_gather]; exact hlen)
      hks
  refine ⟨evs0 ++ [Ev.send "UPDATE_SUCCESS", Ev.closeConn, Ev.sleepEv, Ev.reset],
    fs1, n, ?_⟩
  rw [heq]
  have hw : slices (client_payload_bytes cf) (gather_files cf) = cf := by
    rw [client_payload_eq]
    exact slices_flatten cf
  have hnil : (client_payload_bytes cf).drop (sizeSum (gather_files cf)) = [] := by
    apply List.drop_eq_nil_of_le
    rw [payload_length, sizeSum_gather]
  rw [hw, hnil]

/-- A concrete two-file project for the round-trip witnesses. -/
def cCf : List (String × List Nat) := [("a.txt", [104, 105]), ("d/b.txt", [97])]

/-- Witness for C3 on a concrete two-file transfer, one file in a
nested directory, with 1-byte transport chunks. -/
theorem c3_roundtrip_witness :
    ∃ evs fs1 n,
      process_files noErr ⟨[], [], client_payload_bytes cCf, [1, 1, 1]⟩ (gather_files cCf) =
        (evs, ⟨fs1, cCf, [], List.drop n [1, 1, 1]⟩, SessOutcome.completed) :=
  c3_roundtrip cCf noErr [] [1, 1, 1] (fun _ => rfl) (by decide) (by decide) (by decide)

/-- C6 amended: the payload phase is per-file acknowledged, not
per-chunk: a successful session's sends are exactly one 2-byte `OK`
per manifest file followed by the final token — the count does not
depend on how the stream was chunked. -/
theorem c6_amended_per_file_ack (osErr : String → Option Nat) (st : SrvState)
    (entries : List FileEntry) (hos : ∀ d, osErr d = none)
    (hvp : ∀ e ∈ entries, validPath e.path)
    (hstream : sizeSum entries ≤ st.stream.length)
    (hsched : sizeSum entries ≤ st.sched.length)
    (hks : ∀ k ∈ st.sched, 1 ≤ k) :
    ∃ evs st2, process_files osErr st entries = (evs, st2, SessOutcome.completed) ∧
      evs.filter isSend =
        List.replicate entries.length (Ev.send "OK") ++ [Ev.send "UPDATE_SUCCESS"] := by
  obtain ⟨evs0, fs1, n, heq, _, hfilter⟩ :=
    process_files_success osErr hos entries st hvp hstream hsched hks
  refine ⟨_, _, heq, ?_⟩
  rw [List.filter_append, hfilter]
  simp [isSend]

/-- Witness for the amended C6: the concrete one-file session sends
exactly one `OK` and then the final token. -/
theorem c6_amended_per_file_ack_witness :
    ∃ evs st2, process_files noErr cSt cEntries = (evs, st2, SessOutcome.completed) ∧
      evs.filter isSend =
        List.replicate cEntries.length (Ev.send "OK") ++ [Ev.send "UPDATE_SUCCESS"] :=
  c6_amended_per_file_ack noErr cSt cEntries (fun _ => rfl) (by decide) (by decide)
    (by decide) (by decide)

/-- Witness for the amended C1 on the concrete two-file project. -/
theorem c1_amended_raw_stream_per_file_witness :
    (client_payload_bytes cCf = (cCf.map (fun f => f.2)).flatten) ∧
    ((client_send_files cCf).countP (fun ev => match ev with
      | CEv.cawait _ => true
      | CEv.csend _ => false) = cCf.length) ∧
    ∃ evs0 fs1 n,
      process_files noErr ⟨[], [], client_payload_bytes cCf, [1, 1, 1]⟩ (gather_files cCf) =
        (evs0 ++ [Ev.send "UPDATE_SUCCESS", Ev.closeConn, Ev.sleepEv, Ev.reset],
         ⟨fs1, slices (client_payload_bytes cCf) (gather_files cCf),
          [], List.drop n [1, 1, 1]⟩,
         SessOutcome.completed) ∧
      evs0.filter isSend = List.replicate cCf.length (Ev.send "OK") :=
  c1_amended_raw_stream_per_file cCf noErr [] [1, 1, 1] (fun _ => rfl) (by decide)
    (by decide) (by decide)

lemma auth_loop_length (H : String → List Nat) (secret : String) (chal : Nat → String)
    (resp : Nat → Option String) : ∀ n, (auth_loop H secret chal resp n).1.length ≤ 2 * n := by
  intro n
  induction n with
  | zero => simp [auth_loop]
  | succ m ih =>
    simp only [auth_loop]
    cases hre : resp (3 - (m + 1)) with
    | none =>
      dsimp only
      simp only [List.length_cons, List.length_nil]
      omega
    | some r =>
      dsimp only
      split
      · simp only [List.length_cons, List.length_nil]
        omega
      · simp only [List.length_cons]
        omega

/-- C4: on each connection the server makes at most 3 authentication
attempts, drawing a fresh challenge from the generator for every
attempt; a matching response is answered with `OK` and success, a
mismatch with `AUTH_FAIL` and another attempt while attempts remain,
and after 3 mismatches the loop ends with failure and no further token
is ever sent. -/
theorem c4_auth_three_attempts (H : String → List Nat) (secret : String)
    (chal : Nat → String) (resp : Nat → Option String) (r0 r1 r2 : String)
    (h0 : resp 0 = some r0) (h1 : resp 1 = some r1) (h2 : resp 2 = some r2) :
    ((authenticate_client H secret chal resp).1.length ≤ 6) ∧
    (r0 = server_expected H secret (chal 0) →
      authenticate_client H secret chal resp =
        ([Ev.send (chal 0), Ev.send "OK"], true)) ∧
    (r0 ≠ server_expected H secret (chal 0) → r1 = server_expected H secret (chal 1) →
      authenticate_client H secret chal resp =
        ([Ev.send (chal 0), Ev.send "AUTH_FAIL", Ev.send (chal 1), Ev.send "OK"], true)) ∧
    (r0 ≠ server_expected H secret (chal 0) → r1 ≠ server_expected H secret (chal 1) →
      r2 = server_expected H secret (chal 2) →
      authenticate_client H secret chal resp =
        ([Ev.send (chal 0), Ev.send "AUTH_FAIL", Ev.send (chal 1), Ev.send "AUTH_FAIL",
          Ev.send (chal 2), Ev.send "OK"], true)) ∧
    (r0 ≠ server_expected H secret (chal 0) → r1 ≠ server_expected H secret (chal 1) →
      r2 ≠ server_expected H secret (chal 2) →
      authenticate_client H secret chal resp =
        ([Ev.send (chal 0), Ev.send "AUTH_FAIL", Ev.send (chal 1), Ev.send "AUTH_FAIL",
          Ev.send (chal 2), Ev.send "AUTH_FAIL"], false)) := by
  refine ⟨auth_loop_length H secret chal resp 3, ?_, ?_, ?_, ?_⟩
  · intro hm0
    have hv0 : verify_response H secret (chal 0) r0 = true := by
      simp [verify_response, hm0]
    simp [authenticate_client, auth_loop, h0, hv0]
  · intro hn0 hm1
    have hv0 : verify_response H secret (chal 0) r0 = false := by
      rw [verify_response, beq_eq_false_iff_ne]
      exact hn0
    have hv1 : verify_response H secret (chal 1) r1 = true := by
      simp [verify_response, hm1]
    simp [authenticate_client, auth_loop, h0, h1, hv0, hv1]
  · intro hn0 hn1 hm2
    have hv0 : verify_response H secret (chal 0) r0 = false := by
      rw [verify_response, beq_eq_false_iff_ne]
      exact hn0
    have hv1 : verify_response H secret (chal 1) r1 = false := by
      rw [verify_response, beq_eq_false_iff_ne]
      exact hn1
    have hv2 : verify_response H secret (chal 2) r2 = true := by
      simp [verify_response, hm2]
    simp [authenticate_client, auth_loop, h0, h1, h2, hv0, hv1, hv2]
  · intro hn0 hn1 hn2
    have hv0 : verify_response H secret (chal 0) r0 = false := by
      rw [verify_response, beq_eq_false_iff_ne]
      exact hn0
    have hv1 : verify_response H secret (chal 1) r1 = false := by
      rw [verify_response, beq_eq_false_iff_ne]
      exact hn1
    have hv2 : verify_response H secret (chal 2) r2 = false := by
      rw [verify_response, beq_eq_false_iff_ne]
      exact hn2
    simp [authenticate_client, auth_loop, h0, h1, h2, hv0, hv1, hv2]

/-- A concrete digest oracle for witnesses: one byte summarizing the
input length. -/
def cH : String → List Nat := fun s => [s.length % 256]

/-- A concrete challenge generator: the hex encoding of the attempt
number. -/
def cChal : Nat → String := fun i => hexlify [i]

/-- A client that always answers `zz`, wrong for every challenge. -/
def cRespWrong : Nat → Option String := fun _ => some "zz"

/-- Witness for C4: three wrong responses produce exactly three
challenge/`AUTH_FAIL` rounds and a failed result with no `OK`. -/
theorem c4_auth_three_attempts_witness :
    authenticate_client cH "pw" cChal cRespWrong =
      ([Ev.send (cChal 0), Ev.send "AUTH_FAIL", Ev.send (cChal 1), Ev.send "AUTH_FAIL",
        Ev.send (cChal 2), Ev.send "AUTH_FAIL"], false) :=
  (c4_auth_three_attempts cH "pw" cChal cRespWrong "zz" "zz" "zz" rfl rfl rfl).2.2.2.2
    (by decide) (by decide) (by decide)
